import Mathlib

/-!
Verification development for `src/low_float_robinhood.py`, a low-float stock
screener.  The Python source is shallowly embedded below:

* Python dictionary values that may appear in a yfinance `info` dict are the
  inductive `PyVal`.  Python `float` values are modelled exactly as decimal
  rationals `mant * 10 ^ exp10` (every finite IEEE double is such a number);
  the program only ever compares them with `0` and truncates them with
  `int(...)`, and both operations are exact on this representation.
* Network effects are made explicit: `fetch_float` receives a `FetchOutcome`
  (the yfinance call either raised or produced an info dict),
  `robinhood_has_symbol` receives an `RhResponse`, and the symbol download
  receives the fetched text of each list as `Option (List String)` (already
  split into lines), `none` meaning a failed request.
* The two thread pools are modelled by quantifying over an arbitrary
  completion order: `as_completed` yields the submitted futures in some
  permutation of the submission list.
-/

/-- Value stored in a Python dict as seen by `fetch_float`: `None` (also used
for an absent key, which `dict.get` maps to `None`), an `int`, a finite
`float` (represented exactly as `mant * 10 ^ exp10`), a `str`, or any value
of another type.  Python `bool` is an `int` subclass, so `True`/`False` are
covered by `vInt 1`/`vInt 0`. -/
inductive PyVal where
  | vNone
  | vInt (n : Int)
  | vFloat (mant : Int) (exp10 : Int)
  | vStr (s : String)
  | vOther
  deriving DecidableEq

/-- Python `info.get(k)`: the value stored under `k`, or `None` when absent. -/
def dictGet (info : List (String × PyVal)) (k : String) : PyVal :=
  match info.find? (fun p => p.1 == k) with
  | some p => p.2
  | none => PyVal.vNone

/-- Python `int(x)` applied to the finite float `mant * 10 ^ exp10`:
truncation toward zero, which for a nonnegative exponent is exact
multiplication and for a negative exponent is truncated integer division. -/
def decTrunc (mant : Int) (exp10 : Int) : Int :=
  match exp10 with
  | Int.ofNat k => mant * (10 : Int) ^ k
  | Int.negSucc k => Int.tdiv mant ((10 : Int) ^ (k + 1))

/-- Python `isinstance(v, (int, float)) and v > 0` from line 57 of the
source.  The sign of `mant * 10 ^ exp10` is the sign of `mant`. -/
def pyNumPos : PyVal → Bool
  | PyVal.vInt n => decide (0 < n)
  | PyVal.vFloat m _ => decide (0 < m)
  | _ => false

/-- Python `int(v)` for a numeric `v` (only ever applied after `pyNumPos`). -/
def pyToInt : PyVal → Int
  | PyVal.vInt n => n
  | PyVal.vFloat m e => decTrunc m e
  | _ => 0

/-- Whitespace characters stripped by Python `str.strip()` (ASCII subset). -/
def isPySpace (c : Char) : Bool :=
  c = ' ' || c = '\t' || c = '\n' || c = '\r' || c = '\x0b' || c = '\x0c'

/-- Python `str.strip()` on a character list. -/
def trimChars (cs : List Char) : List Char :=
  ((cs.dropWhile isPySpace).reverse.dropWhile isPySpace).reverse

/-- Python `str.split(sep)` for a one-character separator. -/
def charSplit (sep : Char) : List Char → List (List Char)
  | [] => [[]]
  | c :: cs =>
    match charSplit sep cs with
    | [] => [[c]]
    | h :: t => if c = sep then [] :: h :: t else (c :: h) :: t

/-- Boolean test that the first list is a prefix of the second
(Python `str.startswith`). -/
def beginsWith : List Char → List Char → Bool
  | [], _ => true
  | _ :: _, [] => false
  | p :: ps, c :: cs => p = c && beginsWith ps cs

/-- Numeric value of a digit string (most significant digit first). -/
def digitsVal (cs : List Char) : Nat :=
  cs.foldl (fun n c => 10 * n + (c.toNat - 48)) 0

/-- Split an optional leading sign off a character list, returning the sign
as `1` or `-1` together with the remainder. -/
def parseSign : List Char → Int × List Char
  | '+' :: rest => (1, rest)
  | '-' :: rest => (-1, rest)
  | rest => (1, rest)

/-- Model of Python `float(s)` restricted to finite decimal literals:
optional surrounding whitespace, optional sign, digits with an optional
decimal point, and an optional decimal exponent.  The result is the exact
value as a pair `(mant, exp10)` meaning `mant * 10 ^ exp10`.  `none` covers
every input on which the enclosing Python `int(float(s))` raises (malformed
literals, and the non-finite forms such as `inf`/`nan` on which `int`
raises); those exceptions are swallowed by the source's inner
`try ... except: pass`. -/
def charFloat (input : List Char) : Option (Int × Int) :=
  let cs := trimChars input
  let sgn := parseSign cs
  let ip := sgn.2.takeWhile Char.isDigit
  let r1 := sgn.2.dropWhile Char.isDigit
  let fpair : List Char × List Char :=
    match r1 with
    | '.' :: rest => (rest.takeWhile Char.isDigit, rest.dropWhile Char.isDigit)
    | _ => ([], r1)
  if ip.isEmpty && fpair.1.isEmpty then none
  else
    let mant : Int := sgn.1 * (digitsVal (ip ++ fpair.1) : Int)
    let e0 : Int := -(fpair.1.length : Int)
    match fpair.2 with
    | [] => some (mant, e0)
    | c :: rest =>
      if c = 'e' || c = 'E' then
        let esgn := parseSign rest
        let ed := esgn.2.takeWhile Char.isDigit
        let r3 := esgn.2.dropWhile Char.isDigit
        if ed.isEmpty || !r3.isEmpty then none
        else some (mant, e0 + esgn.1 * (digitsVal ed : Int))
      else none

/-- One step of the string fallback in `fetch_float` (lines 63-72):
Python `int(float(v.replace(",", "")))` for a string-typed `v`; `none` when
`v` is not a string or when the conversion raises (the inner
`except ... pass`). -/
def strParse : PyVal → Option Int
  | PyVal.vStr s =>
    (charFloat (s.data.filter (fun c => c != ','))).map (fun me => decTrunc me.1 me.2)
  | _ => none

/-- First pass of `fetch_float` (lines 55-59): walk the prioritized key list,
and at the first key whose value is numeric and strictly positive, return its
truncation and stop. -/
def scanNumeric (info : List (String × PyVal)) : List String → Option Int
  | [] => none
  | k :: ks =>
    let v := dictGet info k
    if pyNumPos v then some (pyToInt v) else scanNumeric info ks

/-- Second pass of `fetch_float` (lines 61-72): walk the secondary key list;
at each key whose value is a string, attempt `int(float(v.replace(",", "")))`
and stop at the first strictly positive result (a failed parse or a
nonpositive result falls through to the next key). -/
def scanString (info : List (String × PyVal)) : List String → Option Int
  | [] => none
  | k :: ks =>
    match strParse (dictGet info k) with
    | some fv => if 0 < fv then some fv else scanString info ks
    | none => scanString info ks

/-- Key tuple `("floatShares", "sharesFloat", "float", "sharesOutstanding")`
from line 55 of the source. -/
def numericFloatKeys : List String :=
  ["floatShares", "sharesFloat", "float", "sharesOutstanding"]

/-- Key tuple `("floatShares", "sharesOutstanding")` from line 63. -/
def stringFloatKeys : List String := ["floatShares", "sharesOutstanding"]

/-- Outcome of the yfinance interaction inside `fetch_float`'s `try` block:
either some exception was raised (network failure, parse failure, ...) or an
info dict was produced (`t.info or {}` makes a falsy `info` the empty dict,
which is the empty association list here). -/
inductive FetchOutcome where
  | raise
  | ok (info : List (String × PyVal))
  deriving DecidableEq

/-- Record built by `fetch_float` (lines 73-81): the symbol, the extracted
float share count, and the three metadata fields copied verbatim from the
info dict. -/
structure EnrichRecord where
  symbol : String
  float : Option Int
  shortName : PyVal
  exchange : PyVal
  marketCap : PyVal
  deriving DecidableEq

/-- Embedding of `fetch_float` (lines 48-81).  On an exception everything
degrades to the all-`None` record of line 81; otherwise the two key scans run
in order (the second only when the first produced nothing — note that a first
pass result of `0` is not `None` in Python, so it also suppresses the second
pass) and the metadata fields are copied unconditionally. -/
def fetch_float (symbol : String) (outcome : FetchOutcome) : EnrichRecord :=
  match outcome with
  | FetchOutcome.raise =>
    { symbol := symbol, float := none, shortName := PyVal.vNone,
      exchange := PyVal.vNone, marketCap := PyVal.vNone }
  | FetchOutcome.ok info =>
    let fs1 := scanNumeric info numericFloatKeys
    let fs : Option Int :=
      match fs1 with
      | some n => some n
      | none => scanString info stringFloatKeys
    { symbol := symbol, float := fs, shortName := dictGet info "shortName",
      exchange := dictGet info "exchange", marketCap := dictGet info "marketCap" }

/-- Parsed JSON value, as produced by `response.json()`. -/
inductive Json where
  | jnull
  | jbool (b : Bool)
  | jnum (mant : Int) (exp10 : Int)
  | jstr (s : String)
  | jarr (elems : List Json)
  | jobj (fields : List (String × Json))

/-- Body part of an HTTP response: `response.json()` either raised or
returned a parsed value. -/
inductive RhBody where
  | parseError
  | parsed (data : Json)

/-- Observable outcome of `requests.get` inside `robinhood_has_symbol`:
the call raised (connection error, timeout, ...) or returned a response with
a status code and a body. -/
inductive RhResponse where
  | netError
  | resp (status : Nat) (body : RhBody)

/-- Python dict lookup `data.get(k)` for a parsed JSON object. -/
def jlookup (fields : List (String × Json)) (k : String) : Option Json :=
  (fields.find? (fun p => p.1 == k)).map (fun p => p.2)

/-- Python `bool(x)` on a JSON-decoded value: `None`, `False`, zero, the
empty string, the empty list and the empty dict are falsy. -/
def pyTruthy : Json → Bool
  | Json.jnull => false
  | Json.jbool b => b
  | Json.jnum m _ => m != 0
  | Json.jstr s => s != ""
  | Json.jarr [] => false
  | Json.jarr (_ :: _) => true
  | Json.jobj [] => false
  | Json.jobj (_ :: _) => true

/-- Embedding of `robinhood_has_symbol` (lines 83-93).  A raised request, a
non-200 status, a body that fails to parse, or a parsed body that is not a
dict (so that `data.get` raises `AttributeError`, swallowed by the outer
`except`) all give `False`; otherwise the result is `bool(data.get("results"))`. -/
def robinhood_has_symbol : RhResponse → Bool
  | RhResponse.netError => false
  | RhResponse.resp status body =>
    if status ≠ 200 then false
    else
      match body with
      | RhBody.parseError => false
      | RhBody.parsed (Json.jobj fields) =>
        pyTruthy ((jlookup fields "results").getD Json.jnull)
      | RhBody.parsed _ => false

/-- Spec-side reading of C4's acceptance condition, following the spec's
words: the parsed body "contains a non-empty \x22results\x22 collection",
i.e. it is an object whose `results` entry is a non-empty array or a
non-empty object.  Compared against `robinhood_has_symbol`, which instead
tests Python truthiness of whatever `results` holds. -/
def specNonEmptyResultsCollection : Json → Bool
  | Json.jobj fields =>
    match jlookup fields "results" with
    | some (Json.jarr (_ :: _)) => true
    | some (Json.jobj (_ :: _)) => true
    | _ => false
  | _ => false

/-- Truthiness of the `results` entry of a parsed body, exactly as the code
tests it: the amended form of C4's acceptance condition. -/
def resultsTruthy : Json → Bool
  | Json.jobj fields => pyTruthy ((jlookup fields "results").getD Json.jnull)
  | _ => false

/-- Line-level filter of `download_symbol_list` (line 39): the loop over
`lines[1:]` breaks at the first falsy (empty) line or line starting with
`"File Creation"`. -/
def isStop (line : String) : Bool :=
  line == "" || beginsWith "File Creation".data line.data

/-- Per-line symbol extraction of `download_symbol_list` (lines 41-45):
`line.split("|")[0].strip()`, kept only when non-empty and different from
the header echo `"Symbol"`. -/
def extractSym (line : String) : Option String :=
  let sym : String := ⟨trimChars ((charSplit '|' line.data).headD [])⟩
  if sym == "" || sym == "Symbol" then none else some sym

/-- Symbols contributed by one downloaded list (lines 38-45): skip the first
line unconditionally, keep lines up to the first stop line, extract a
candidate from each. -/
def parseSource (lines : List String) : List String :=
  (lines.tail.takeWhile (fun l => !isStop l)).filterMap extractSym

/-- Embedding of `download_symbol_list` (lines 31-46) after both requests
succeeded, taking the line lists of the two feeds: the union of both parses
as a set (`symbols.add`), returned sorted (`sorted(symbols)`). -/
def download_symbol_list (nasdaqLines otherLines : List String) : List String :=
  List.insertionSort (fun a b : String => a ≤ b)
    ((parseSource nasdaqLines ++ parseSource otherLines).dedup)

/-- Float-cutoff filter of `main` (lines 118-125): keep records whose
`float` is present and at most the cutoff. -/
def filterByFloat (cutoff : Int) (rs : List EnrichRecord) : List EnrichRecord :=
  rs.filter (fun r =>
    match r.float with
    | none => false
    | some v => decide (v ≤ cutoff))

/-- Robinhood filter of `main` (lines 130-141): keep the records whose
tradability check returned `True`, in the order the checks completed. -/
def rhFilter (rh : String → Bool) (rs : List EnrichRecord) : List EnrichRecord :=
  rs.filter (fun r => rh r.symbol)

/-- Sort key of line 144, `x["float"] or float("inf")`: `None` and the falsy
`0` are replaced by plus infinity, modelled as `none` in an
`Option Int` ordered with `none` on top. -/
def sortKey (r : EnrichRecord) : Option Int :=
  match r.float with
  | none => none
  | some v => if v = 0 then none else some v

/-- Order on sort keys: ordinary integer order with `none` (plus infinity)
as the top element. -/
def keyLE : Option Int → Option Int → Bool
  | _, none => true
  | none, some _ => false
  | some a, some b => decide (a ≤ b)

/-- Comparison of two records by their sort keys, the relation by which
line 144 sorts. -/
def recKeyLE (a b : EnrichRecord) : Prop :=
  keyLE (sortKey a) (sortKey b) = true

/-- Stable insertion into a sorted list: the new element goes in front of
the first element it is `keyLE`-below-or-equal. -/
def insertKey (a : EnrichRecord) : List EnrichRecord → List EnrichRecord
  | [] => [a]
  | b :: l => if keyLE (sortKey a) (sortKey b) then a :: b :: l else b :: insertKey a l

/-- Stable sort by `sortKey`, modelling `list.sort(key=...)` of line 144
(Python's sort is stable). -/
def sortByKey : List EnrichRecord → List EnrichRecord
  | [] => []
  | a :: l => insertKey a (sortByKey l)

/-- The list that line 144 sorts: with the Robinhood option it is the
tradability-filtered list (built in completion order `rhCompletion` of the
second pool), otherwise the float-filtered list. -/
def preSortList (results : List EnrichRecord) (cutoff : Int) (robinhood : Bool)
    (rh : String → Bool) (rhCompletion : List EnrichRecord) : List EnrichRecord :=
  if robinhood then rhFilter rh rhCompletion else filterByFloat cutoff results

/-- The final report of `main` (lines 118-144): filter by float, optionally
filter by tradability, sort stably by the float-or-infinity key.  This list
is what is written to the CSV and printed. -/
def finalReport (results : List EnrichRecord) (cutoff : Int) (robinhood : Bool)
    (rh : String → Bool) (rhCompletion : List EnrichRecord) : List EnrichRecord :=
  sortByKey (preSortList results cutoff robinhood rh rhCompletion)

/-- Embedding of the `ThreadPoolExecutor` fan-out of lines 112-116: one
future per item is submitted, and `as_completed` yields every future exactly
once, in some completion order; the collected results are the worker applied
to the items in that order.  The pool size bounds in-flight work only, so it
does not appear in the result. -/
def run_batch {α β : Type} (worker : α → β) (concurrency : Nat)
    (completionOrder : List α) : List β :=
  completionOrder.map worker

/-- Terminal outcome of one run of `main`. -/
inductive RunResult where
  | sourceUnavailable
  | outputWriteFailure (report : List EnrichRecord)
  | ok (report : List EnrichRecord)

/-- Embedding of `main` (lines 95-157) at the granularity needed for the
error-propagation claim: `raise_for_status` on a failed source download
(line 35) aborts the run before anything else happens, the per-symbol
enrichment and tradability lookups are total, and a failing CSV write
(line 147) aborts after the report is built.  `srcA`/`srcB` are the two
feed downloads, `enrich` gives each symbol's yfinance outcome and `rh` each
symbol's tradability answer. -/
def runMain (srcA srcB : Option (List String)) (enrich : String → FetchOutcome)
    (cutoff : Int) (robinhood : Bool) (rh : String → Bool) (writeOk : Bool) : RunResult :=
  match srcA with
  | none => RunResult.sourceUnavailable
  | some la =>
    match srcB with
    | none => RunResult.sourceUnavailable
    | some lb =>
      let symbols := download_symbol_list la lb
      let results := symbols.map (fun s => fetch_float s (enrich s))
      let report := finalReport results cutoff robinhood rh (filterByFloat cutoff results)
      if writeOk then RunResult.ok report else RunResult.outputWriteFailure report

/-- Numeric acceptance test of the first pass of `fetch_float`, per key:
the key's value is numeric and strictly positive. -/
def numAccepts (info : List (String × PyVal)) (k : String) : Bool :=
  pyNumPos (dictGet info k)

/-- String acceptance test of the second pass of `fetch_float`, per key:
the key's value is a string whose comma-stripped parse truncates to a
strictly positive integer. -/
def strAccepts (info : List (String × PyVal)) (k : String) : Bool :=
  match strParse (dictGet info k) with
  | some fv => decide (0 < fv)
  | none => false

/-! Helper lemmas about the filter, the stable sort and the two key scans. -/

theorem mem_filterByFloat {cutoff : Int} {r : EnrichRecord} {rs : List EnrichRecord} :
    r ∈ filterByFloat cutoff rs ↔ r ∈ rs ∧ ∃ v, r.float = some v ∧ v ≤ cutoff := by
  unfold filterByFloat
  rw [List.mem_filter]
  cases hf : r.float with
  | none => simp [hf]
  | some v => simp [hf]

theorem insertKey_perm (a : EnrichRecord) (l : List EnrichRecord) :
    List.Perm (insertKey a l) (a :: l) := by
  induction l with
  | nil => exact List.Perm.refl _
  | cons b l ih =>
    unfold insertKey
    by_cases h : keyLE (sortKey a) (sortKey b) = true
    · rw [if_pos h]
    · rw [if_neg h]
      exact (ih.cons b).trans (List.Perm.swap a b l)

theorem sortByKey_perm (l : List EnrichRecord) : List.Perm (sortByKey l) l := by
  induction l with
  | nil => exact List.Perm.refl _
  | cons a l ih => exact (insertKey_perm a (sortByKey l)).trans (ih.cons a)

theorem keyLE_refl (x : Option Int) : keyLE x x = true := by
  cases x <;> simp [keyLE]

theorem keyLE_total (x y : Option Int) : keyLE x y = true ∨ keyLE y x = true := by
  cases x <;> cases y <;> simp [keyLE] <;> omega

theorem keyLE_trans {x y z : Option Int} (h1 : keyLE x y = true) (h2 : keyLE y z = true) :
    keyLE x z = true := by
  cases x <;> cases y <;> cases z <;> simp_all [keyLE] <;> omega

theorem keyLE_of_not {x y : Option Int} (h : ¬ keyLE x y = true) : keyLE y x = true :=
  (keyLE_total x y).resolve_left h

theorem ne_of_not_keyLE {x y : Option Int} (h : ¬ keyLE x y = true) : y ≠ x := by
  intro he
  apply h
  rw [he]
  exact keyLE_refl x

theorem pairwise_insertKey {a : EnrichRecord} {l : List EnrichRecord}
    (h : l.Pairwise recKeyLE) : (insertKey a l).Pairwise recKeyLE := by
  induction l with
  | nil => simp [insertKey, recKeyLE]
  | cons b l ih =>
    rcases List.pairwise_cons.1 h with ⟨hb, hl⟩
    unfold insertKey
    by_cases hab : keyLE (sortKey a) (sortKey b) = true
    · rw [if_pos hab]
      refine List.pairwise_cons.2 ⟨?_, h⟩
      intro x hx
      rcases List.mem_cons.1 hx with rfl | hx'
      · exact hab
      · exact keyLE_trans hab (hb x hx')
    · rw [if_neg hab]
      refine List.pairwise_cons.2 ⟨?_, ih hl⟩
      intro x hx
      rcases List.mem_cons.1 ((insertKey_perm a l).mem_iff.1 hx) with rfl | hx'
      · exact keyLE_of_not hab
      · exact hb x hx'

theorem sortByKey_sorted (l : List EnrichRecord) : (sortByKey l).Pairwise recKeyLE := by
  induction l with
  | nil => exact List.Pairwise.nil
  | cons a l ih => exact pairwise_insertKey ih

theorem filter_insertKey (a : EnrichRecord) (l : List EnrichRecord) (k : Option Int) :
    (insertKey a l).filter (fun r => decide (sortKey r = k)) =
      if sortKey a = k then a :: l.filter (fun r => decide (sortKey r = k))
      else l.filter (fun r => decide (sortKey r = k)) := by
  induction l with
  | nil =>
    by_cases h : sortKey a = k
    · simp [insertKey, h]
    · simp [insertKey, h]
  | cons b l ih =>
    unfold insertKey
    by_cases hab : keyLE (sortKey a) (sortKey b) = true
    · rw [if_pos hab]
      by_cases h : sortKey a = k
      · simp [List.filter_cons, h]
      · simp [List.filter_cons, h]
    · rw [if_neg hab]
      have hbk : sortKey b ≠ sortKey a := ne_of_not_keyLE hab
      by_cases h : sortKey a = k
      · have hbk' : sortKey b ≠ k := by rw [← h]; exact hbk
        simp [List.filter_cons, hbk', h, ih]
      · simp [List.filter_cons, ih, h]

theorem sortByKey_stable (l : List EnrichRecord) (k : Option Int) :
    (sortByKey l).filter (fun r => decide (sortKey r = k)) =
      l.filter (fun r => decide (sortKey r = k)) := by
  induction l with
  | nil => rfl
  | cons a l ih =>
    show (insertKey a (sortByKey l)).filter _ = _
    rw [filter_insertKey]
    by_cases h : sortKey a = k
    · rw [if_pos h, ih, List.filter_cons]
      simp [h]
    · rw [if_neg h, ih, List.filter_cons]
      simp [h]

theorem mem_preSortList {results rhCompletion : List EnrichRecord} {cutoff : Int}
    {robinhood : Bool} {rh : String → Bool} {r : EnrichRecord}
    (hperm : List.Perm rhCompletion (filterByFloat cutoff results))
    (hr : r ∈ preSortList results cutoff robinhood rh rhCompletion) :
    r ∈ filterByFloat cutoff results := by
  cases robinhood with
  | false => simpa [preSortList] using hr
  | true =>
    have h2 : r ∈ rhFilter rh rhCompletion := by simpa [preSortList] using hr
    exact hperm.mem_iff.1 (List.mem_filter.1 h2).1

theorem mem_finalReport_float {results rhCompletion : List EnrichRecord} {cutoff : Int}
    {robinhood : Bool} {rh : String → Bool} {r : EnrichRecord}
    (hperm : List.Perm rhCompletion (filterByFloat cutoff results))
    (hr : r ∈ finalReport results cutoff robinhood rh rhCompletion) :
    ∃ v, r.float = some v ∧ v ≤ cutoff := by
  unfold finalReport at hr
  exact (mem_filterByFloat.1 (mem_preSortList hperm ((sortByKey_perm _).mem_iff.1 hr))).2

theorem scanNumeric_eq_find (info : List (String × PyVal)) (ks : List String) :
    scanNumeric info ks =
      (ks.find? (numAccepts info)).map (fun k => pyToInt (dictGet info k)) := by
  induction ks with
  | nil => rfl
  | cons k ks ih =>
    simp only [scanNumeric]
    by_cases h : pyNumPos (dictGet info k) = true
    · rw [if_pos h, List.find?_cons_of_pos _ (by simpa [numAccepts] using h)]
      rfl
    · rw [if_neg h, List.find?_cons_of_neg _ (by simpa [numAccepts] using h), ih]

theorem scanString_eq_find (info : List (String × PyVal)) (ks : List String) :
    scanString info ks =
      (ks.find? (strAccepts info)).map (fun k => (strParse (dictGet info k)).getD 0) := by
  induction ks with
  | nil => rfl
  | cons k ks ih =>
    simp only [scanString]
    cases hp : strParse (dictGet info k) with
    | none =>
      rw [List.find?_cons_of_neg _ (by simp [strAccepts, hp]), ih]
    | some fv =>
      show (if 0 < fv then some fv else scanString info ks) = _
      by_cases hv : 0 < fv
      · rw [if_pos hv, List.find?_cons_of_pos _ (by simp [strAccepts, hp, hv])]
        simp [hp]
      · rw [if_neg hv, List.find?_cons_of_neg _ (by simp [strAccepts, hp, hv]), ih]

theorem decTrunc_nonneg {m : Int} (hm : 0 ≤ m) (e : Int) : 0 ≤ decTrunc m e := by
  cases e with
  | ofNat k => exact mul_nonneg hm (pow_nonneg (by norm_num) k)
  | negSucc k => exact Int.tdiv_nonneg hm (pow_nonneg (by norm_num) (k + 1))

theorem pyToInt_nonneg {v : PyVal} (h : pyNumPos v = true) : 0 ≤ pyToInt v := by
  cases v with
  | vInt n =>
    simp [pyNumPos] at h
    simpa [pyToInt] using le_of_lt h
  | vFloat m e =>
    simp [pyNumPos] at h
    show 0 ≤ decTrunc m e
    exact decTrunc_nonneg (le_of_lt h) e
  | vNone => simp [pyNumPos] at h
  | vStr s => simp [pyNumPos] at h
  | vOther => simp [pyNumPos] at h

theorem scanNumeric_nonneg {info : List (String × PyVal)} {ks : List String} {n : Int}
    (h : scanNumeric info ks = some n) : 0 ≤ n := by
  induction ks with
  | nil => simp [scanNumeric] at h
  | cons k ks ih =>
    simp only [scanNumeric] at h
    by_cases hp : pyNumPos (dictGet info k) = true
    · rw [if_pos hp] at h
      obtain rfl : pyToInt (dictGet info k) = n := by simpa using h
      exact pyToInt_nonneg hp
    · rw [if_neg hp] at h
      exact ih h

theorem scanString_pos {info : List (String × PyVal)} {ks : List String} {n : Int}
    (h : scanString info ks = some n) : 0 < n := by
  induction ks with
  | nil => simp [scanString] at h
  | cons k ks ih =>
    simp only [scanString] at h
    cases hp : strParse (dictGet info k) with
    | none =>
      simp only [hp] at h
      exact ih h
    | some fv =>
      simp only [hp] at h
      by_cases hv : 0 < fv
      · rw [if_pos hv] at h
        obtain rfl : fv = n := by simpa using h
        exact hv
      · rw [if_neg hv] at h
        exact ih h

/-! Claim theorems.  Each theorem settles one claim of the specification
against the embedding above. -/

/-- Claim C1: every row of the final report has a present `float` that is at
most the cutoff, for every input record collection, every cutoff, with or
without the Robinhood stage, and for every completion order of the
tradability checks. -/
theorem c1_output_float_present_le_cutoff
    (results : List EnrichRecord) (cutoff : Int) (robinhood : Bool)
    (rh : String → Bool) (rhCompletion : List EnrichRecord)
    (hperm : List.Perm rhCompletion (filterByFloat cutoff results)) :
    ∀ r ∈ finalReport results cutoff robinhood rh rhCompletion,
      ∃ v, r.float = some v ∧ v ≤ cutoff :=
  fun _ hr => mem_finalReport_float hperm hr

/-- Witness for C1: a concrete run whose report contains the enriched
record for `"AAA"` with float 3 and cutoff 10. -/
theorem c1_witness :
    ∃ v, (fetch_float "AAA" (FetchOutcome.ok [("floatShares", PyVal.vInt 3)])).float =
        some v ∧ v ≤ 10 :=
  c1_output_float_present_le_cutoff
    [fetch_float "AAA" (FetchOutcome.ok [("floatShares", PyVal.vInt 3)])] 10 true
    (fun s => s == "AAA")
    (filterByFloat 10 [fetch_float "AAA" (FetchOutcome.ok [("floatShares", PyVal.vInt 3)])])
    (List.Perm.refl _)
    (fetch_float "AAA" (FetchOutcome.ok [("floatShares", PyVal.vInt 3)]))
    (by decide)

/-- Claim C2: when the yfinance interaction raises, `fetch_float` returns
the record with `float = None` and every other optional field `None` (so the
run continues, `fetch_float` being total), and that record is excluded from
every final report. -/
theorem c2_enrich_failure_degrades_and_excluded (sym : String) :
    fetch_float sym FetchOutcome.raise =
      { symbol := sym, float := none, shortName := PyVal.vNone,
        exchange := PyVal.vNone, marketCap := PyVal.vNone } ∧
    ∀ (results : List EnrichRecord) (cutoff : Int) (robinhood : Bool)
      (rh : String → Bool) (rhCompletion : List EnrichRecord),
      List.Perm rhCompletion (filterByFloat cutoff results) →
      fetch_float sym FetchOutcome.raise ∉
        finalReport results cutoff robinhood rh rhCompletion := by
  refine ⟨rfl, ?_⟩
  intro results cutoff robinhood rh rhCompletion hperm hmem
  obtain ⟨v, hv, _⟩ := mem_finalReport_float hperm hmem
  simp [fetch_float] at hv

/-- Witness for C2: the failed record for `"ZZZ"` is not in the report even
when it is among the enrichment results. -/
theorem c2_witness :
    fetch_float "ZZZ" FetchOutcome.raise ∉
      finalReport [fetch_float "ZZZ" FetchOutcome.raise] 10 false (fun _ => true)
        (filterByFloat 10 [fetch_float "ZZZ" FetchOutcome.raise]) :=
  (c2_enrich_failure_degrades_and_excluded "ZZZ").2
    [fetch_float "ZZZ" FetchOutcome.raise] 10 false (fun _ => true)
    (filterByFloat 10 [fetch_float "ZZZ" FetchOutcome.raise]) (List.Perm.refl _)

/-- Counterexample to C3 as stated: with cutoff 10 and records produced by
`fetch_float` itself — `"BBB"` with integer `floatShares = 5` and `"AAA"`
with float-typed `floatShares = 0.5` (which truncates to 0, survives the
filter, and gets the infinity sort key) — the report's floats are
`[5, 0]`, not ascending by float. -/
theorem c3_counterexample :
    (finalReport
        [fetch_float "BBB" (FetchOutcome.ok [("floatShares", PyVal.vInt 5)]),
         fetch_float "AAA" (FetchOutcome.ok [("floatShares", PyVal.vFloat 5 (-1))])]
        10 false (fun _ => true) []).map (fun r => r.float) = [some 5, some 0] ∧
    ¬ List.Pairwise (fun a b : EnrichRecord => a.float.getD 0 ≤ b.float.getD 0)
      (finalReport
        [fetch_float "BBB" (FetchOutcome.ok [("floatShares", PyVal.vInt 5)]),
         fetch_float "AAA" (FetchOutcome.ok [("floatShares", PyVal.vFloat 5 (-1))])]
        10 false (fun _ => true) []) :=
  ⟨by decide, by decide⟩

/-- Claim C3 (amended): the final report is stably sorted by the line-144
sort key (`float`, with `0` and missing values mapped to plus infinity):
it is `keyLE`-sorted, rows with equal keys keep their order from the list
being sorted, and whenever no surviving row has `float = 0` the report is
ascending by `float` itself. -/
theorem c3_amended_stable_sort
    (results : List EnrichRecord) (cutoff : Int) (robinhood : Bool)
    (rh : String → Bool) (rhCompletion : List EnrichRecord)
    (hperm : List.Perm rhCompletion (filterByFloat cutoff results)) :
    List.Pairwise recKeyLE (finalReport results cutoff robinhood rh rhCompletion) ∧
    (∀ k : Option Int,
      (finalReport results cutoff robinhood rh rhCompletion).filter
          (fun r => decide (sortKey r = k)) =
        (preSortList results cutoff robinhood rh rhCompletion).filter
          (fun r => decide (sortKey r = k))) ∧
    ((∀ r ∈ finalReport results cutoff robinhood rh rhCompletion, r.float ≠ some 0) →
      List.Pairwise (fun a b : EnrichRecord => a.float.getD 0 ≤ b.float.getD 0)
        (finalReport results cutoff robinhood rh rhCompletion)) := by
  refine ⟨sortByKey_sorted _, fun k => sortByKey_stable _ k, ?_⟩
  intro hz
  refine List.Pairwise.imp_of_mem ?_ (sortByKey_sorted _)
  intro a b ha hb hle
  obtain ⟨va, hva, _⟩ := mem_finalReport_float hperm ha
  obtain ⟨vb, hvb, _⟩ := mem_finalReport_float hperm hb
  have hva0 : va ≠ 0 := by
    intro h0
    exact hz a ha (by rw [hva, h0])
  have hvb0 : vb ≠ 0 := by
    intro h0
    exact hz b hb (by rw [hvb, h0])
  have hka : sortKey a = some va := by simp [sortKey, hva, hva0]
  have hkb : sortKey b = some vb := by simp [sortKey, hvb, hvb0]
  have hle' : keyLE (sortKey a) (sortKey b) = true := hle
  rw [hka, hkb] at hle'
  simp only [keyLE, decide_eq_true_eq] at hle'
  rw [hva, hvb]
  simpa using hle'

/-- Witness for C3 (amended part 1) at a concrete run. -/
theorem c3_witness :
    List.Pairwise recKeyLE
      (finalReport [fetch_float "AAA" (FetchOutcome.ok [("floatShares", PyVal.vInt 3)])] 10
        false (fun _ => true)
        (filterByFloat 10 [fetch_float "AAA" (FetchOutcome.ok [("floatShares", PyVal.vInt 3)])])) :=
  (c3_amended_stable_sort
    [fetch_float "AAA" (FetchOutcome.ok [("floatShares", PyVal.vInt 3)])] 10 false
    (fun _ => true)
    (filterByFloat 10 [fetch_float "AAA" (FetchOutcome.ok [("floatShares", PyVal.vInt 3)])])
    (List.Perm.refl _)).1

/-- Counterexample to C4 as stated: with status 200 and parsed body
`{"results": "ok"}` the code returns `True` (Python truthiness of the
string), yet the body does not contain a non-empty `results` collection, so
the claimed equivalence fails. -/
theorem c4_counterexample :
    robinhood_has_symbol
        (RhResponse.resp 200 (RhBody.parsed (Json.jobj [("results", Json.jstr "ok")]))) = true ∧
    specNonEmptyResultsCollection (Json.jobj [("results", Json.jstr "ok")]) = false :=
  ⟨by decide, by decide⟩

/-- Claim C4 (amended): `robinhood_has_symbol` (a total function, so it
never raises) returns `True` exactly when the response has status 200 and a
parsed body whose `results` entry is truthy (a non-empty collection, a
non-empty string, a nonzero number, or `true`); any network error, non-200
status, parse failure, or non-object body yields `False`. -/
theorem c4_amended_truthiness (resp : RhResponse) :
    robinhood_has_symbol resp = true ↔
      ∃ j, resp = RhResponse.resp 200 (RhBody.parsed j) ∧ resultsTruthy j = true := by
  cases resp with
  | netError => simp [robinhood_has_symbol]
  | resp status body =>
    by_cases hs : status = 200
    · subst hs
      cases body with
      | parseError => simp [robinhood_has_symbol]
      | parsed j => cases j <;> simp [robinhood_has_symbol, resultsTruthy]
    · cases body <;> simp [robinhood_has_symbol, hs]

/-- Claim C5: the symbol list built from the two feeds is deduplicated,
lexicographically sorted, and contains exactly the symbols extracted from
either feed by the line-parsing rule (`parseSource`: skip the header line,
stop at the first blank or footer line, take the first pipe-delimited field
trimmed, discard empty strings and the literal `"Symbol"`); in particular a
ticker listed in both feeds appears exactly once. -/
theorem c5_symbols_sorted_dedup (nasdaqLines otherLines : List String) :
    (download_symbol_list nasdaqLines otherLines).Nodup ∧
    List.Sorted (· ≤ ·) (download_symbol_list nasdaqLines otherLines) ∧
    ∀ s, s ∈ download_symbol_list nasdaqLines otherLines ↔
      s ∈ parseSource nasdaqLines ∨ s ∈ parseSource otherLines := by
  unfold download_symbol_list
  refine ⟨?_, ?_, ?_⟩
  · exact (List.perm_insertionSort _ _).nodup_iff.2 (List.nodup_dedup _)
  · exact List.sorted_insertionSort _ _
  · intro s
    rw [(List.perm_insertionSort _ _).mem_iff, List.mem_dedup, List.mem_append]

/-- Claim C6: with the Robinhood stage requested every report row's
tradability flag is `True`; without it, the report does not depend on the
tradability oracle or on the second pool's completion order at all (the
eligibility stage is never invoked). -/
theorem c6_eligibility_flag_and_skip :
    (∀ (results : List EnrichRecord) (cutoff : Int) (rh : String → Bool)
        (rhCompletion : List EnrichRecord),
      ∀ r ∈ finalReport results cutoff true rh rhCompletion, rh r.symbol = true) ∧
    (∀ (results : List EnrichRecord) (cutoff : Int) (rh rh2 : String → Bool)
        (rhCompletion rhCompletion2 : List EnrichRecord),
      finalReport results cutoff false rh rhCompletion =
        finalReport results cutoff false rh2 rhCompletion2) := by
  constructor
  · intro results cutoff rh rhCompletion r hr
    have h1 : r ∈ preSortList results cutoff true rh rhCompletion :=
      (sortByKey_perm _).mem_iff.1 hr
    have h2 : r ∈ rhFilter rh rhCompletion := by simpa [preSortList] using h1
    exact (List.mem_filter.1 h2).2
  · intro results cutoff rh rh2 rhCompletion rhCompletion2
    rfl

/-- Witness for C6 at a concrete run with a non-trivial tradability oracle. -/
theorem c6_witness : (("AAA" : String) == "AAA") = true :=
  c6_eligibility_flag_and_skip.1
    [fetch_float "AAA" (FetchOutcome.ok [("floatShares", PyVal.vInt 3)])] 10
    (fun s => s == "AAA")
    (filterByFloat 10 [fetch_float "AAA" (FetchOutcome.ok [("floatShares", PyVal.vInt 3)])])
    (fetch_float "AAA" (FetchOutcome.ok [("floatShares", PyVal.vInt 3)]))
    (by decide)

/-- Claim C7: the batch runner with any pool size of at least 1 produces
exactly one worker result per item — the collected list, taken in any
completion order, has the items' length and is a permutation of the worker
mapped over the items (no interpretation or filtering of results). -/
theorem c7_run_batch_preserves_items
    {α β : Type} (worker : α → β) (concurrency : Nat) (hC : 1 ≤ concurrency)
    (items completionOrder : List α)
    (hperm : List.Perm completionOrder items) :
    (run_batch worker concurrency completionOrder).length = items.length ∧
    List.Perm (run_batch worker concurrency completionOrder) (items.map worker) := by
  constructor
  · show (completionOrder.map worker).length = items.length
    rw [List.length_map, hperm.length_eq]
  · exact hperm.map worker

/-- Witness for C7: 3 items, pool size 8, a completion order different from
the submission order. -/
theorem c7_witness :
    (run_batch (fun n : Nat => n + 1) 8 [20, 10, 30]).length = ([10, 20, 30] : List Nat).length ∧
    List.Perm (run_batch (fun n : Nat => n + 1) 8 [20, 10, 30])
      ([10, 20, 30].map (fun n => n + 1)) :=
  c7_run_batch_preserves_items (fun n => n + 1) 8 (by decide) [10, 20, 30] [20, 10, 30]
    (List.Perm.swap 10 20 [30])

/-- Claim C8: a failed download of either feed makes the whole run end in
`SourceUnavailable` (no partial-source fallback, whatever the other feed
returned), and with both feeds available, every run — for every per-symbol
enrichment outcome and tradability answer, including all-failing ones —
ends in `ok` when the output write succeeds and in `outputWriteFailure`
otherwise: only those two failures terminate the process. -/
theorem c8_only_source_and_write_failures_fatal :
    (∀ (srcB : Option (List String)) (enrich : String → FetchOutcome) (cutoff : Int)
        (robinhood : Bool) (rh : String → Bool) (writeOk : Bool),
      runMain none srcB enrich cutoff robinhood rh writeOk = RunResult.sourceUnavailable) ∧
    (∀ (la : List String) (enrich : String → FetchOutcome) (cutoff : Int)
        (robinhood : Bool) (rh : String → Bool) (writeOk : Bool),
      runMain (some la) none enrich cutoff robinhood rh writeOk =
        RunResult.sourceUnavailable) ∧
    (∀ (la lb : List String) (enrich : String → FetchOutcome) (cutoff : Int)
        (robinhood : Bool) (rh : String → Bool),
      ∃ report, runMain (some la) (some lb) enrich cutoff robinhood rh true =
        RunResult.ok report) ∧
    (∀ (la lb : List String) (enrich : String → FetchOutcome) (cutoff : Int)
        (robinhood : Bool) (rh : String → Bool),
      ∃ report, runMain (some la) (some lb) enrich cutoff robinhood rh false =
        RunResult.outputWriteFailure report) :=
  ⟨fun _ _ _ _ _ _ => rfl, fun _ _ _ _ _ _ => rfl,
   fun _ _ _ _ _ _ => ⟨_, rfl⟩, fun _ _ _ _ _ _ => ⟨_, rfl⟩⟩

/-- Claim C9: on a successful fetch, the metadata fields are copied from the
info dict independently of the float extraction, and the float is the
truncation of the value under the first key of the prioritized numeric list
whose value is numeric and strictly positive; only when no such key exists
is it the comma-stripped string parse of the first key of the secondary list
whose string value parses to a strictly positive integer (or `None` if none
does). -/
theorem c9_prioritized_extraction (sym : String) (info : List (String × PyVal)) :
    (fetch_float sym (FetchOutcome.ok info)).shortName = dictGet info "shortName" ∧
    (fetch_float sym (FetchOutcome.ok info)).exchange = dictGet info "exchange" ∧
    (fetch_float sym (FetchOutcome.ok info)).marketCap = dictGet info "marketCap" ∧
    (fetch_float sym (FetchOutcome.ok info)).float =
      (match numericFloatKeys.find? (numAccepts info) with
       | some k => some (pyToInt (dictGet info k))
       | none =>
         (stringFloatKeys.find? (strAccepts info)).map
           (fun k => (strParse (dictGet info k)).getD 0)) := by
  refine ⟨rfl, rfl, rfl, ?_⟩
  show (match scanNumeric info numericFloatKeys with
        | some n => some n
        | none => scanString info stringFloatKeys) = _
  rw [scanNumeric_eq_find, scanString_eq_find]
  cases numericFloatKeys.find? (numAccepts info) <;> simp

/-- Counterexample to C10 as stated: a float-typed `floatShares = 0.7`
(numeric and strictly positive, so accepted by the first pass) truncates to
0, so `fetch_float` returns `float = some 0` — neither `None` nor strictly
positive — and the sort key of that record is the infinity fallback. -/
theorem c10_counterexample :
    (fetch_float "CCC" (FetchOutcome.ok [("floatShares", PyVal.vFloat 7 (-1))])).float =
      some 0 ∧
    sortKey (fetch_float "CCC" (FetchOutcome.ok [("floatShares", PyVal.vFloat 7 (-1))])) =
      none :=
  ⟨by decide, by decide⟩

/-- Claim C10 (amended): the float value returned by `fetch_float` is either
`None` or a non-negative integer (zero is reachable, from a float-typed
field value strictly between 0 and 1), and for rows that survived the
filter the infinity fallback of the sort key is taken exactly on
`float = some 0`. -/
theorem c10_amended_float_nonneg :
    (∀ (sym : String) (outcome : FetchOutcome) (n : Int),
      (fetch_float sym outcome).float = some n → 0 ≤ n) ∧
    (∀ (results : List EnrichRecord) (cutoff : Int) (robinhood : Bool)
        (rh : String → Bool) (rhCompletion : List EnrichRecord),
      List.Perm rhCompletion (filterByFloat cutoff results) →
      ∀ r ∈ finalReport results cutoff robinhood rh rhCompletion,
        sortKey r = none → r.float = some 0) := by
  constructor
  · intro sym outcome n h
    cases outcome with
    | raise => simp [fetch_float] at h
    | ok info =>
      simp only [fetch_float] at h
      cases hs : scanNumeric info numericFloatKeys with
      | some m =>
        rw [hs] at h
        obtain rfl : m = n := by simpa using h
        exact scanNumeric_nonneg hs
      | none =>
        rw [hs] at h
        exact le_of_lt (scanString_pos (by simpa using h))
  · intro results cutoff robinhood rh rhCompletion hperm r hr hkey
    obtain ⟨v, hv, _⟩ := mem_finalReport_float hperm hr
    simp only [sortKey, hv] at hkey
    by_cases h0 : v = 0
    · rw [hv, h0]
    · rw [if_neg h0] at hkey
      simp at hkey

/-- Witness for C10 (amended part 1) at a concrete enrichment. -/
theorem c10_witness : (0 : Int) ≤ 3 :=
  c10_amended_float_nonneg.1 "AAA" (FetchOutcome.ok [("floatShares", PyVal.vInt 3)]) 3
    (by decide)
